import Mathlib

/-!
Verification of the GitHub Security Auditor backend (src/backend/main.py)
against its natural-language specification.

The Python source is shallowly embedded: each helper becomes a pure Lean
function over explicit inputs.  Remote HTTP traffic is modelled by passing
the sequence of responses the remote would give to the successive requests
the code issues; `asyncio` completion order is nondeterministic, so the
event-stream models take the completion-ordered list of unit results as a
parameter and theorems quantify over it.
-/

/-! ## Resilient Request Executor — `_fetch_with_retry` (main.py lines 47-72) -/

/-- One HTTP response as seen by `_fetch_with_retry`: its status code and the
optional `X-RateLimit-Reset` header (an epoch-seconds integer when present). -/
structure Resp where
  status : Nat
  resetTs : Option Int
deriving DecidableEq, Repr

/-- Wait computation of `_fetch_with_retry` (lines 58-64), with the 0-based
loop index `attempt`: with a reset header, `max(reset - now, 1)` capped at
120; without one, `30 * (attempt + 1)`. -/
def retryWait (resetTs : Option Int) (now : Int) (attempt : Nat) : Int :=
  match resetTs with
  | some ts => min (max (ts - now) 1) 120
  | none => 30 * ((attempt : Int) + 1)

/-- Modelled from the spec wording of section 4.1, for comparison with the
code-derived `retryWait`: `wait = max(reset_timestamp - now, 1)` clamped to
120, else a linearly increasing `30 * attempt_number` where `attempt_number`
is 1-based (successive waits 30, 60, 90). -/
def specWait (resetTs : Option Int) (now : Int) (attemptNumber : Nat) : Int :=
  match resetTs with
  | some ts => min (max (ts - now) 1) 120
  | none => 30 * (attemptNumber : Int)

/-- The retry loop `for attempt in range(max_retries)` of `_fetch_with_retry`,
with `fuel = max_retries - attempt` remaining iterations.  `responses j` is
the response the remote gives to the `(j+1)`-th request issued; `now j` is
the clock value `int(time.time())` read during attempt `j`.  When the loop
ends without returning, the code issues one final request and returns it
("Last attempt — return whatever we get", line 71-72).  Returns the response
returned to the caller together with the list of back-off sleeps performed. -/
def fetchLoop (responses : Nat → Resp) (now : Nat → Int) :
    Nat → Nat → Resp × List Int
  | 0, attempt => (responses attempt, [])
  | fuel + 1, attempt =>
      if (responses attempt).status = 403 then
        ((fetchLoop responses now fuel (attempt + 1)).1,
          retryWait (responses attempt).resetTs (now attempt) attempt ::
            (fetchLoop responses now fuel (attempt + 1)).2)
      else (responses attempt, [])

/-- `_fetch_with_retry` with its default `max_retries = 3` (no caller
overrides it). -/
def fetchWithRetry (responses : Nat → Resp) (now : Nat → Int) : Resp × List Int :=
  fetchLoop responses now 3 0

/-! ## Paginated Collector — `_fetch_all_repos` (main.py lines 75-105) -/

/-- One page request issued by the collector: `params={"per_page": 100,
"page": page}`. -/
structure PageRequest where
  page : Nat
  perPage : Nat
deriving DecidableEq, Repr

/-- The remote response to one list-page request: HTTP status, response text
(used in the generic error detail), and the decoded item list. -/
structure PageResponse (α : Type) where
  status : Nat
  body : String
  items : List α
deriving DecidableEq, Repr

/-- Typed failure raised by `_fetch_all_repos` (as `HTTPException`):
401 invalid token, 404 unknown organization, any other non-200 a generic
upstream error carrying the status and response text. -/
inductive FetchError
  | invalidToken
  | orgNotFound
  | upstream (status : Nat) (body : String)
deriving DecidableEq, Repr

/-- The `while True` pagination loop of `_fetch_all_repos`, starting at page
number `pageNum`.  The input list holds the responses the remote gives to the
successive page requests; `none` means the model ran out of responses while
the loop still wanted more.  Returns the list of page requests issued and
either the accumulated items or the typed failure. -/
def fetchAllReposAux (pageNum : Nat) :
    List (PageResponse α) → Option (List PageRequest × Except FetchError (List α))
  | [] => none
  | p :: rest =>
      let req : PageRequest := ⟨pageNum, 100⟩
      if p.status = 401 then some ([req], Except.error FetchError.invalidToken)
      else if p.status = 404 then some ([req], Except.error FetchError.orgNotFound)
      else if p.status ≠ 200 then
        some ([req], Except.error (FetchError.upstream p.status p.body))
      else if p.items.isEmpty then some ([req], Except.ok [])
      else
        match fetchAllReposAux (pageNum + 1) rest with
        | none => none
        | some (reqs, Except.error e) => some (req :: reqs, Except.error e)
        | some (reqs, Except.ok items) => some (req :: reqs, Except.ok (p.items ++ items))

/-- `_fetch_all_repos`: pagination starts at `page = 1`. -/
def fetchAllRepos (pages : List (PageResponse α)) :
    Option (List PageRequest × Except FetchError (List α)) :=
  fetchAllReposAux 1 pages

/-! ## Theorems for the Resilient Request Executor -/

/-- C2: the executor returns the first response whose status is not 403
immediately without retrying (no back-off sleeps beyond the 403s before it);
when all three budgeted attempts return 403 it performs one final best-effort
request and returns its response unconditionally — it never raises (the model
is a total function into `Resp`). -/
theorem executor_first_non403 :
    (∀ (responses : Nat → Resp) (now : Nat → Int) (k : Nat), k < 3 →
        (∀ j, j < k → (responses j).status = 403) →
        (responses k).status ≠ 403 →
        (fetchWithRetry responses now).1 = responses k ∧
          (fetchWithRetry responses now).2.length = k) ∧
    (∀ (responses : Nat → Resp) (now : Nat → Int),
        (∀ j, j < 3 → (responses j).status = 403) →
        (fetchWithRetry responses now).1 = responses 3 ∧
          (fetchWithRetry responses now).2.length = 3) := by
  constructor
  · intro responses now k hk hprev hstop
    interval_cases k
    · simp [fetchWithRetry, fetchLoop, hstop]
    · have h0 := hprev 0 (by omega)
      simp [fetchWithRetry, fetchLoop, h0, hstop]
    · have h0 := hprev 0 (by omega)
      have h1 := hprev 1 (by omega)
      simp [fetchWithRetry, fetchLoop, h0, h1, hstop]
  · intro responses now hall
    have h0 := hall 0 (by omega)
    have h1 := hall 1 (by omega)
    have h2 := hall 2 (by omega)
    simp [fetchWithRetry, fetchLoop, h0, h1, h2]

/-- Witness for `executor_first_non403` at concrete inputs: an immediate 200
is returned with no sleeps, and three straight 403s lead to exactly three
sleeps and the fourth response being returned. -/
theorem executor_first_non403_witness :
    ((fetchWithRetry (fun _ => Resp.mk 200 none) (fun _ => 0)).1 = Resp.mk 200 none ∧
      (fetchWithRetry (fun _ => Resp.mk 200 none) (fun _ => 0)).2.length = 0) ∧
    ((fetchWithRetry (fun _ => Resp.mk 403 none) (fun _ => 0)).1 = Resp.mk 403 none ∧
      (fetchWithRetry (fun _ => Resp.mk 403 none) (fun _ => 0)).2.length = 3) :=
  ⟨executor_first_non403.1 (fun _ => Resp.mk 200 none) (fun _ => 0) 0 (by omega)
      (fun j hj => absurd hj (Nat.not_lt_zero j)) (by decide),
    executor_first_non403.2 (fun _ => Resp.mk 403 none) (fun _ => 0) (fun j _ => rfl)⟩

/-- C3: the back-off computed on a 403 refines the spec wait policy: with a
reset header it is `max(reset - now, 1)` clamped to at most 120 (equal to the
unclamped value whenever that is at most 120, pinned to 120 beyond), always
within `[1, 120]`; without a header the run sleeps 30, 60, 90 seconds on the
three successive attempts.  `specWait` is the policy as worded in the spec,
with a 1-based attempt number. -/
theorem executor_wait_policy :
    (∀ (resetTs : Option Int) (now : Int) (attempt : Nat),
        retryWait resetTs now attempt = specWait resetTs now (attempt + 1)) ∧
    (∀ (ts now : Int) (attempt : Nat),
        1 ≤ retryWait (some ts) now attempt ∧ retryWait (some ts) now attempt ≤ 120) ∧
    (∀ (ts now : Int) (attempt : Nat), ts - now ≤ 120 →
        retryWait (some ts) now attempt = max (ts - now) 1) ∧
    (∀ (ts now : Int) (attempt : Nat), 120 ≤ ts - now →
        retryWait (some ts) now attempt = 120) ∧
    (∀ (responses : Nat → Resp) (now : Nat → Int),
        (∀ j, j < 3 → responses j = Resp.mk 403 none) →
        (fetchWithRetry responses now).2 = [30, 60, 90]) ∧
    (∀ now : Int, retryWait (some (now + 10)) now 0 = 10) ∧
    (∀ now : Int, retryWait (some (now + 1000)) now 0 = 120) := by
  refine ⟨?_, ?_, ?_, ?_, ?_, ?_, ?_⟩
  · intro resetTs now attempt
    cases resetTs <;> simp [retryWait, specWait]
  · intro ts now attempt
    simp only [retryWait]
    constructor
    · rcases le_total (max (ts - now) 1) 120 with h | h
      · rw [min_eq_left h]; exact le_max_right _ _
      · rw [min_eq_right h]; omega
    · exact min_le_right _ _
  · intro ts now attempt h
    simp only [retryWait]
    exact min_eq_left (max_le h (by omega))
  · intro ts now attempt h
    simp only [retryWait]
    rw [max_eq_left (by omega), min_eq_right h]
  · intro responses now hall
    have h0 := hall 0 (by omega)
    have h1 := hall 1 (by omega)
    have h2 := hall 2 (by omega)
    simp [fetchWithRetry, fetchLoop, h0, h1, h2, retryWait]
  · intro now
    simp only [retryWait]
    rw [show now + 10 - now = 10 by ring, max_eq_left (by omega), min_eq_left (by omega)]
  · intro now
    simp only [retryWait]
    rw [show now + 1000 - now = 1000 by ring, max_eq_left (by omega), min_eq_right (by omega)]

/-- Witness for `executor_wait_policy`: concrete waits for the two simulated
reset headers from the spec tests and the no-header run. -/
theorem executor_wait_policy_witness :
    retryWait (some 10) 0 0 = 10 ∧ retryWait (some 1000) 0 0 = 120 ∧
    (fetchWithRetry (fun _ => Resp.mk 403 none) (fun _ => 0)).2 = [30, 60, 90] :=
  ⟨by have h := executor_wait_policy.2.2.2.2.2.1 0; simpa using h,
    by have h := executor_wait_policy.2.2.2.2.2.2 0; simpa using h,
    executor_wait_policy.2.2.2.2.1 (fun _ => Resp.mk 403 none) (fun _ => 0) (fun j _ => rfl)⟩

/-! ## Theorems for the Paginated Collector -/

/-- Pagination loop invariant: starting at page number `k`, a run of
all-200 non-empty pages followed by an empty 200 page consumes exactly those
pages, issues the sequential requests `k, k+1, ...` all with `per_page = 100`,
and concatenates the items in page order. -/
theorem fetchAllReposAux_ok (emptyP : PageResponse α) (rest : List (PageResponse α))
    (hstat : emptyP.status = 200) (hempty : emptyP.items = []) :
    ∀ (pages : List (PageResponse α)) (k : Nat),
      (∀ p ∈ pages, p.status = 200 ∧ p.items ≠ []) →
      fetchAllReposAux k (pages ++ emptyP :: rest)
        = some ((List.range' k (pages.length + 1)).map (fun n => PageRequest.mk n 100),
                Except.ok (pages.flatMap PageResponse.items)) := by
  intro pages
  induction pages with
  | nil =>
      intro k _
      simp [fetchAllReposAux, hstat, hempty]
  | cons p ps ih =>
      intro k hall
      have hp := hall p (List.mem_cons_self p ps)
      have hrec := ih (k + 1) (fun q hq => hall q (List.mem_cons_of_mem p hq))
      simp [fetchAllReposAux, hp.1, hp.2, hrec, List.range'_succ]

/-- C4: the collector requests pages strictly sequentially (page numbers
1, 2, ... in order) with fixed page size 100, stops exactly at the first page
whose item sequence is empty, and returns the concatenation of the non-empty
pages in order, having issued one request per non-empty page plus the final
empty one. -/
theorem collector_pagination (pages : List (PageResponse α)) (emptyP : PageResponse α)
    (rest : List (PageResponse α))
    (hall : ∀ p ∈ pages, p.status = 200 ∧ p.items ≠ [])
    (hstat : emptyP.status = 200) (hempty : emptyP.items = []) :
    fetchAllRepos (pages ++ emptyP :: rest)
      = some ((List.range' 1 (pages.length + 1)).map (fun n => PageRequest.mk n 100),
              Except.ok (pages.flatMap PageResponse.items)) ∧
    ((List.range' 1 (pages.length + 1)).map (fun n => PageRequest.mk n 100)).length
      = pages.length + 1 ∧
    (∀ req ∈ (List.range' 1 (pages.length + 1)).map (fun n => PageRequest.mk n 100),
        req.perPage = 100) := by
  refine ⟨fetchAllReposAux_ok emptyP rest hstat hempty pages 1 hall, by simp, ?_⟩
  intro req hreq
  simp only [List.mem_map] at hreq
  obtain ⟨n, _, rfl⟩ := hreq
  rfl

/-- Witness for `collector_pagination`: pages of 100, 100 and 37 items
followed by an empty page yield exactly 237 items from exactly 4 page
requests, matching the spec test. -/
theorem collector_pagination_witness :
    ∃ reqs items,
      fetchAllRepos [(⟨200, "", List.range 100⟩ : PageResponse Nat),
          ⟨200, "", List.range 100⟩, ⟨200, "", List.range 37⟩, ⟨200, "", []⟩]
        = some (reqs, Except.ok items) ∧ reqs.length = 4 ∧ items.length = 237 := by
  have h := collector_pagination (α := Nat)
    [⟨200, "", List.range 100⟩, ⟨200, "", List.range 100⟩, ⟨200, "", List.range 37⟩]
    ⟨200, "", []⟩ []
    (by intro p hp; fin_cases hp <;> simp [List.range_eq_nil]) rfl rfl
  refine ⟨_, _, h.1, ?_, ?_⟩
  · simp
  · simp

/-- Pagination loop abort: a non-200 page terminates the whole collection at
that page with the typed failure decided by its status. -/
theorem fetchAllReposAux_error (bad : PageResponse α) (rest : List (PageResponse α))
    (hbad : bad.status ≠ 200) :
    ∀ (good : List (PageResponse α)) (k : Nat),
      (∀ p ∈ good, p.status = 200 ∧ p.items ≠ []) →
      fetchAllReposAux k (good ++ bad :: rest)
        = some ((List.range' k (good.length + 1)).map (fun n => PageRequest.mk n 100),
            Except.error
              (if bad.status = 401 then FetchError.invalidToken
               else if bad.status = 404 then FetchError.orgNotFound
               else FetchError.upstream bad.status bad.body)) := by
  intro good
  induction good with
  | nil =>
      intro k _
      by_cases h401 : bad.status = 401
      · simp [fetchAllReposAux, h401]
      · by_cases h404 : bad.status = 404
        · simp [fetchAllReposAux, h401, h404]
        · simp [fetchAllReposAux, h401, h404, hbad]
  | cons p ps ih =>
      intro k hall
      have hp := hall p (List.mem_cons_self p ps)
      have hrec := ih (k + 1) (fun q hq => hall q (List.mem_cons_of_mem p hq))
      simp [fetchAllReposAux, hp.1, hp.2, hrec, List.range'_succ]

/-- C7: a non-200 status on a list page aborts the whole collection
immediately with a typed failure — 401 invalid credential, 404 unknown
organization, anything else a generic upstream failure — and no partial data
is ever returned (the result is never an `ok`).  No request beyond the
failing page is issued. -/
theorem collector_typed_abort (good : List (PageResponse α)) (bad : PageResponse α)
    (rest : List (PageResponse α))
    (hgood : ∀ p ∈ good, p.status = 200 ∧ p.items ≠ [])
    (hbad : bad.status ≠ 200) :
    ∃ e, fetchAllRepos (good ++ bad :: rest)
        = some ((List.range' 1 (good.length + 1)).map (fun n => PageRequest.mk n 100),
            Except.error e) ∧
      (bad.status = 401 → e = FetchError.invalidToken) ∧
      (bad.status = 404 → e = FetchError.orgNotFound) ∧
      (bad.status ≠ 401 → bad.status ≠ 404 →
        e = FetchError.upstream bad.status bad.body) ∧
      (∀ reqs items, fetchAllRepos (good ++ bad :: rest) ≠ some (reqs, Except.ok items)) := by
  have h := fetchAllReposAux_error bad rest hbad good 1 hgood
  refine ⟨_, h, ?_, ?_, ?_, ?_⟩
  · intro h401; simp [h401]
  · intro h404
    have h401 : bad.status ≠ 401 := by omega
    simp [h401, h404]
  · intro h401 h404; simp [h401, h404]
  · intro reqs items hcontra
    rw [fetchAllRepos] at hcontra
    rw [h] at hcontra
    simp at hcontra

/-- Witness for `collector_typed_abort`: one good page then a 404 page gives
the unknown-organization failure after exactly two requests. -/
theorem collector_typed_abort_witness :
    ∃ e, fetchAllRepos [(⟨200, "", [0]⟩ : PageResponse Nat), ⟨404, "nf", [5]⟩]
        = some ([⟨1, 100⟩, ⟨2, 100⟩], Except.error e) ∧ e = FetchError.orgNotFound := by
  obtain ⟨e, heq, _, h404, _, _⟩ := collector_typed_abort (α := Nat)
    [⟨200, "", [0]⟩] ⟨404, "nf", [5]⟩ []
    (by intro p hp; fin_cases hp; simp) (by decide)
  refine ⟨e, ?_, h404 rfl⟩
  simpa [List.range'_succ] using heq

/-! ## Repository records and per-unit audit logic (main.py lines 138-274) -/

/-- The fields of one repository object that the backend reads.  The Python
dict-`get` defaults are folded into the field types: `description` and
`language` pass `None` through, `default_branch` falls back to "main" at use
sites, the remaining `get` calls default to empty or false. -/
structure Repo where
  name : String
  description : Option String
  topics : List String
  isPrivate : Bool
  archived : Bool
  default_branch : Option String
  language : Option String
  stargazers_count : Nat
  forks_count : Nat
  html_url : String
deriving DecidableEq, Repr

/-- Outcome of one Python expression: a value, or a raised exception carrying
its message.  Sub-request outcomes are fed to the unit logic as `PyResult`s
so that uncaught exception propagation is visible in the model. -/
inductive PyResult (α : Type) where
  | val (a : α)
  | exn (msg : String)
deriving DecidableEq, Repr

/-- One branch ruleset entry as read by `_check_branch_rules`: its `type`
and the `required_approving_review_count` parameter (0 when absent). -/
structure Rule where
  type : String
  requiredApprovingReviewCount : Nat
deriving DecidableEq, Repr

/-- One row of the 17-column audit produced by `_audit_single_repo`
(lines 256-274). -/
structure RepoData where
  repository : String
  owner : String
  description : Option String
  topics : String
  isPrivate : Bool
  archived : Bool
  default_branch : String
  language : Option String
  stars : Nat
  forks : Nat
  admin_count : Nat
  admin_names : String
  has_codeowners : Bool
  has_required_reviewers : Bool
  allows_direct_push : Bool
  url : String
  branch_count : Nat
deriving DecidableEq, Repr

/-- `_check_path` inside `_check_codeowners`: the status of the contents
request for one candidate path, compared against 200.  A raised exception in
the request propagates. -/
def checkPath (r : PyResult Nat) : PyResult Bool :=
  match r with
  | PyResult.exn e => PyResult.exn e
  | PyResult.val status => PyResult.val (decide (status = 200))

/-- `_check_codeowners` (lines 138-153): the three candidate paths are
checked through `asyncio.gather` and combined with `any`.  An exception
raised by any sub-task propagates out of the gather uncaught. -/
def checkCodeowners (r1 r2 r3 : PyResult Nat) : PyResult Bool :=
  match checkPath r1, checkPath r2, checkPath r3 with
  | PyResult.val a, PyResult.val b, PyResult.val c => PyResult.val (a || b || c)
  | PyResult.exn e, _, _ => PyResult.exn e
  | _, PyResult.exn e, _ => PyResult.exn e
  | _, _, PyResult.exn e => PyResult.exn e

/-- Rule scan of `_check_branch_rules` (lines 171-179): start from
`(allows_direct_push, has_required_reviewers) = (true, false)`; every
`pull_request` rule clears `allows_direct_push` and a positive required
review count sets `has_required_reviewers`. -/
def branchRulesFold (rules : List Rule) : Bool × Bool :=
  rules.foldl
    (fun acc rule =>
      if rule.type == "pull_request" then
        (false, acc.2 || decide (0 < rule.requiredApprovingReviewCount))
      else acc)
    (true, false)

/-- `_check_branch_rules` (lines 156-181): a non-200 response leaves the
defaults `(true, false)`; an exception propagates. -/
def checkBranchRules (r : PyResult (Nat × List Rule)) : PyResult (Bool × Bool) :=
  match r with
  | PyResult.exn e => PyResult.exn e
  | PyResult.val (status, rules) =>
      PyResult.val (if status = 200 then branchRulesFold rules else (true, false))

/-- Pagination loop of `_get_admins` (lines 188-205) over the successive
collaborator-page responses (status and user logins).  A non-200 page makes
the whole helper return `(0, "")` — discarding admins already collected; an
empty page ends the loop normally; an exception propagates; `none` means the
response model ran out while the loop wanted another page. -/
def getAdminsLoop (admins : List String) :
    List (PyResult (Nat × List String)) → Option (PyResult (Nat × String))
  | [] => none
  | PyResult.exn e :: _ => some (PyResult.exn e)
  | PyResult.val (status, users) :: rest =>
      if status ≠ 200 then some (PyResult.val (0, ""))
      else if users.isEmpty then
        some (PyResult.val (admins.length, String.intercalate ", " admins))
      else getAdminsLoop (admins ++ users) rest

/-- Pagination loop of `_get_branch_count` (lines 212-229) over the
successive branch-page responses.  A non-200 page returns the count so far;
an empty page ends the loop; an exception propagates. -/
def getBranchCountLoop (count : Nat) :
    List (PyResult (Nat × List String)) → Option (PyResult Nat)
  | [] => none
  | PyResult.exn e :: _ => some (PyResult.exn e)
  | PyResult.val (status, branches) :: rest =>
      if status ≠ 200 then some (PyResult.val count)
      else if branches.isEmpty then some (PyResult.val count)
      else getBranchCountLoop (count + branches.length) rest

/-- `_audit_single_repo` (lines 232-274) minus the semaphore (modelled
separately by `withSem`): gather the four sub-checks and assemble the
17-column record.  There is no try/except anywhere in the unit, so an
exception from any gathered sub-task propagates out of the unit. -/
def auditSingleRepo (org : String) (repo : Repo)
    (co1 co2 co3 : PyResult Nat)
    (rulesResp : PyResult (Nat × List Rule))
    (adminPages branchPages : List (PyResult (Nat × List String))) :
    Option (PyResult RepoData) :=
  match getAdminsLoop [] adminPages, getBranchCountLoop 0 branchPages with
  | some adminsR, some branchesR =>
      some (match checkCodeowners co1 co2 co3, checkBranchRules rulesResp,
                adminsR, branchesR with
          | PyResult.val hasCo, PyResult.val rulesPair,
              PyResult.val adminsPair, PyResult.val branchCount =>
              PyResult.val {
                repository := repo.name
                owner := org
                description := repo.description
                topics := String.intercalate ", " repo.topics
                isPrivate := repo.isPrivate
                archived := repo.archived
                default_branch := repo.default_branch.getD "main"
                language := repo.language
                stars := repo.stargazers_count
                forks := repo.forks_count
                admin_count := adminsPair.1
                admin_names := adminsPair.2
                has_codeowners := hasCo
                has_required_reviewers := rulesPair.2
                allows_direct_push := rulesPair.1
                url := repo.html_url
                branch_count := branchCount }
          | PyResult.exn e, _, _, _ => PyResult.exn e
          | _, PyResult.exn e, _, _ => PyResult.exn e
          | _, _, PyResult.exn e, _ => PyResult.exn e
          | _, _, _, PyResult.exn e => PyResult.exn e)
  | _, _ => none

/-! ## SSE events and the stream generators (main.py lines 280-336, 436-503,
567-624) -/

/-- One Server-Sent Event emitted by `_sse_event`, by `type` field.
`α` is the payload type carried by the `data` events of the stream at hand
(`repo_data` for the repo audit, `branches` for the branch audit,
`access_data` for the access audit). -/
inductive Event (α : Type) where
  | start (total : Nat)
  | progress (id : String) (processed : Nat)
  | data (payload : α)
  | error (detail : FetchError)
  | done
deriving DecidableEq, Repr

/-- The `processed` counters of the progress events of a stream, in emission
order. -/
def progressCounts : List (Event α) → List Nat
  | [] => []
  | Event.progress _ k :: rest => k :: progressCounts rest
  | Event.start _ :: rest => progressCounts rest
  | Event.data _ :: rest => progressCounts rest
  | Event.error _ :: rest => progressCounts rest
  | Event.done :: rest => progressCounts rest

/-- The payloads of the data events of a stream, in emission order. -/
def dataPayloads : List (Event α) → List α
  | [] => []
  | Event.data d :: rest => d :: dataPayloads rest
  | Event.start _ :: rest => dataPayloads rest
  | Event.progress _ _ :: rest => dataPayloads rest
  | Event.error _ :: rest => dataPayloads rest
  | Event.done :: rest => dataPayloads rest

/-- The `as_completed` loop of `stream_audit_repos` (lines 312-326):
each completed unit yields a `progress` event with the incremented counter
and then, unconditionally, a `data` event with the 17-column record; `done`
follows the loop.  A unit task that raised re-raises at `await coro`, which
terminates the generator on the spot: nothing further is emitted. -/
def emitRepoEvents (processed : Nat) :
    List (PyResult RepoData) → List (Event RepoData)
  | [] => [Event.done]
  | PyResult.exn _ :: _ => []
  | PyResult.val r :: rest =>
      Event.progress r.repository (processed + 1) :: Event.data r ::
        emitRepoEvents (processed + 1) rest

/-- The `as_completed` loop shared (up to payload field name) by
`stream_branches` (lines 474-490) and `stream_access` (lines 598-612):
`progress` with the incremented counter, then a `data` event only if the
unit result is non-empty; `done` after the loop.  As above, an exception at
`await coro` kills the generator. -/
def emitPairEvents (processed : Nat) :
    List (PyResult (String × List α)) → List (Event (List α))
  | [] => [Event.done]
  | PyResult.exn _ :: _ => []
  | PyResult.val c :: rest =>
      Event.progress c.1 (processed + 1) ::
        ((if c.2.isEmpty then [] else [Event.data c.2]) ++
          emitPairEvents (processed + 1) rest)

/-- Unit keys of the repo audit stream: the task dict of `stream_audit_repos`
(lines 307-310) is built from every fetched repository, archived included. -/
def repoAuditUnitNames (repos : List Repo) : List String :=
  repos.map Repo.name

/-- Unit keys of the branch audit stream (line 454):
`[r["name"] for r in all_repos if not r.get("archived")]`. -/
def branchAuditUnitNames (repos : List Repo) : List String :=
  (repos.filter (fun r => !r.archived)).map Repo.name

/-- Unit keys of the access audit stream (line 584), the same comprehension
as the branch stream. -/
def accessAuditUnitNames (repos : List Repo) : List String :=
  (repos.filter (fun r => !r.archived)).map Repo.name

/-- Branch record streamed by `stream_branches` (built in
`_get_branch_details`, lines 406-412). -/
structure BranchRec where
  repository : String
  branch_name : String
  last_commit_date : Option String
  age_days : Option Int
  isProtected : Bool
deriving DecidableEq, Repr

/-- Access record streamed by `stream_access` (built in `_get_repo_access`,
lines 545-549). -/
structure AccessRec where
  repository : String
  username : String
  permission : String
deriving DecidableEq, Repr

/-- Event generator of `stream_audit_repos` (lines 287-326): fetch the full
repo list; on a typed failure emit a single error event and return; else
emit `start` with the total repo count, then the completion loop.
`completions` is the unit results in completion order (the order
`asyncio.as_completed` happens to yield, which is nondeterministic, hence a
parameter). -/
def streamAuditReposRun (pages : List (PageResponse Repo))
    (completions : List (PyResult RepoData)) : Option (List (Event RepoData)) :=
  match fetchAllRepos pages with
  | none => none
  | some (_, Except.error e) => some [Event.error e]
  | some (_, Except.ok repos) =>
      some (Event.start repos.length :: emitRepoEvents 0 completions)

/-- Event generator of `stream_branches` (lines 443-493): fetch the repo
list; on failure a single error event; else `start` with the count of
non-archived repos, then the completion loop over those units. -/
def streamBranchesRun (pages : List (PageResponse Repo))
    (completions : List (PyResult (String × List BranchRec))) :
    Option (List (Event (List BranchRec))) :=
  match fetchAllRepos pages with
  | none => none
  | some (_, Except.error e) => some [Event.error e]
  | some (_, Except.ok repos) =>
      some (Event.start (branchAuditUnitNames repos).length ::
        emitPairEvents 0 completions)

/-- Event generator of `stream_access` (lines 574-614), structurally the
branch generator with access records. -/
def streamAccessRun (pages : List (PageResponse Repo))
    (completions : List (PyResult (String × List AccessRec))) :
    Option (List (Event (List AccessRec))) :=
  match fetchAllRepos pages with
  | none => none
  | some (_, Except.error e) => some [Event.error e]
  | some (_, Except.ok repos) =>
      some (Event.start (accessAuditUnitNames repos).length ::
        emitPairEvents 0 completions)

/-! ## Concurrency permits — `asyncio.Semaphore(5)` (main.py line 277) -/

/-- The value passed to every `asyncio.Semaphore` in the module
(`_AUDIT_SEM`, `_BRANCH_SEM`, `_ACCESS_SEM`, `_MEMBER_SEM`, `_TEAM_SEM`). -/
def AUDIT_SEM_PERMITS : Nat := 5

/-- Counting-semaphore state: free permits and permits currently held. -/
structure Sem where
  avail : Nat
  held : Nat
deriving DecidableEq, Repr

/-- A fresh semaphore with `n` permits and no holders. -/
def Sem.init (n : Nat) : Sem := ⟨n, 0⟩

/-- A permit transition: a unit acquiring at `async with sem:` entry, or
releasing at exit. -/
inductive SemEvt where
  | acquire
  | release
deriving DecidableEq, Repr

/-- Semaphore semantics: acquiring with no free permit is not a step (the
task suspends until a permit is free — `none` marks the non-step), and in
this program every release is preceded by its own acquire, so releasing with
no holder is likewise not a reachable step. -/
def semStep : Sem → SemEvt → Option Sem
  | s, SemEvt.acquire =>
      if s.avail = 0 then none else some ⟨s.avail - 1, s.held + 1⟩
  | s, SemEvt.release =>
      if s.held = 0 then none else some ⟨s.avail + 1, s.held - 1⟩

/-- Run an interleaved trace of acquire/release events from a state. -/
def semRun : Sem → List SemEvt → Option Sem
  | s, [] => some s
  | s, e :: es =>
      match semStep s e with
      | none => none
      | some s2 => semRun s2 es

/-- `async with sem:` around a unit body (`_audit_single_repo` line 240,
`_scan_repo_branches` line 427, `_scan_repo_access` line 562): the permit is
acquired before the body and released when the body finishes, whether it
returned a value or raised — Python context-manager exit runs on the
exception path too. -/
def withSem (s : Sem) (body : PyResult α) : Option (Sem × PyResult α) :=
  match semStep s SemEvt.acquire with
  | none => none
  | some s2 =>
      match semStep s2 SemEvt.release with
      | none => none
      | some s3 => some (s3, body)

/-- Ordered trace of one audit unit: the `async with sem:` block of
`_audit_single_repo` acquires its permit first, all sub-requests are issued
inside the block, and the permit is released on exit. -/
inductive AuditEvt where
  | acq
  | request (url : String)
  | rel
deriving DecidableEq, Repr

/-- The event order of one `_audit_single_repo` call whose gathered
sub-checks issue `urls` (in any serialization of the gather). -/
def auditUnitEvents (urls : List String) : List AuditEvt :=
  AuditEvt.acq :: (urls.map AuditEvt.request ++ [AuditEvt.rel])

/-! ## Emitter lemmas -/

/-- progressCounts distributes over concatenation. -/
theorem progressCounts_append (l1 l2 : List (Event α)) :
    progressCounts (l1 ++ l2) = progressCounts l1 ++ progressCounts l2 := by
  induction l1 with
  | nil => simp [progressCounts]
  | cons e rest ih => cases e <;> simp [progressCounts, ih]

/-- dataPayloads distributes over concatenation. -/
theorem dataPayloads_append (l1 l2 : List (Event α)) :
    dataPayloads (l1 ++ l2) = dataPayloads l1 ++ dataPayloads l2 := by
  induction l1 with
  | nil => simp [dataPayloads]
  | cons e rest ih => cases e <;> simp [dataPayloads, ih]

/-- The repo-audit loop started at counter `n` over `N` successful
completions emits the progress counters `n+1, ..., n+N` in order. -/
theorem progressCounts_emitRepo (rcs : List RepoData) :
    ∀ n, progressCounts (emitRepoEvents n (rcs.map PyResult.val)) =
      List.range' (n + 1) rcs.length := by
  induction rcs with
  | nil => intro n; simp [emitRepoEvents, progressCounts]
  | cons r rest ih =>
      intro n
      simp [emitRepoEvents, progressCounts, ih (n + 1), List.range'_succ]

/-- Likewise for the branch/access loop. -/
theorem progressCounts_emitPair (cs : List (String × List α)) :
    ∀ n, progressCounts (emitPairEvents n (cs.map PyResult.val)) =
      List.range' (n + 1) cs.length := by
  induction cs with
  | nil => intro n; simp [emitPairEvents, progressCounts]
  | cons c rest ih =>
      intro n
      by_cases hc : c.2.isEmpty <;>
        simp [emitPairEvents, progressCounts, progressCounts_append, hc,
          ih (n + 1), List.range'_succ]

/-- The repo-audit loop emits one data payload per completion, in order. -/
theorem dataPayloads_emitRepo (rcs : List RepoData) :
    ∀ n, dataPayloads (emitRepoEvents n (rcs.map PyResult.val)) = rcs := by
  induction rcs with
  | nil => intro n; simp [emitRepoEvents, dataPayloads]
  | cons r rest ih =>
      intro n
      simp [emitRepoEvents, dataPayloads, ih (n + 1)]

/-- The branch/access loop emits exactly the non-empty unit results as data
payloads, in completion order. -/
theorem dataPayloads_emitPair (cs : List (String × List α)) :
    ∀ n, dataPayloads (emitPairEvents n (cs.map PyResult.val)) =
      (cs.map Prod.snd).filter (fun l => !l.isEmpty) := by
  induction cs with
  | nil => intro n; simp [emitPairEvents, dataPayloads]
  | cons c rest ih =>
      intro n
      by_cases hc : c.2.isEmpty <;>
        simp [emitPairEvents, dataPayloads, dataPayloads_append, hc,
          ih (n + 1), List.filter_cons]

/-- Filtering the snd-projections matches filtering the pairs, in length. -/
theorem filter_map_snd_length (bcs : List (String × List α)) :
    ((bcs.map Prod.snd).filter (fun l => !l.isEmpty)).length
      = (bcs.filter (fun c => !c.2.isEmpty)).length := by
  induction bcs with
  | nil => rfl
  | cons c rest ih => by_cases h : c.2.isEmpty <;> simp [List.filter_cons, h, ih]

/-- A successful repo-audit loop ends in the done event. -/
theorem emitRepo_concat_done (rcs : List RepoData) :
    ∀ n, ∃ l, emitRepoEvents n (rcs.map PyResult.val) = l ++ [Event.done] := by
  induction rcs with
  | nil => intro n; exact ⟨[], rfl⟩
  | cons r rest ih =>
      intro n
      obtain ⟨l, hl⟩ := ih (n + 1)
      exact ⟨Event.progress r.repository (n + 1) :: Event.data r :: l,
        by simp [emitRepoEvents, hl]⟩

/-- A successful branch/access loop ends in the done event. -/
theorem emitPair_concat_done (cs : List (String × List α)) :
    ∀ n, ∃ l, emitPairEvents n (cs.map PyResult.val) = l ++ [Event.done] := by
  induction cs with
  | nil => intro n; exact ⟨[], rfl⟩
  | cons c rest ih =>
      intro n
      obtain ⟨l, hl⟩ := ih (n + 1)
      refine ⟨Event.progress c.1 (n + 1) ::
        ((if c.2.isEmpty then [] else [Event.data c.2]) ++ l), ?_⟩
      simp [emitPairEvents, hl]

/-- The branch/access loop never begins with a data event. -/
theorem emitPair_head_not_data (n : Nat) (cs : List (PyResult (String × List α)))
    (d : List α) : (emitPairEvents n cs).get? 0 ≠ some (Event.data d) := by
  match cs with
  | [] => simp [emitPairEvents]
  | PyResult.exn e :: rest => simp [emitPairEvents]
  | PyResult.val c :: rest => simp [emitPairEvents]

/-- Progress/data adjacency of the branch/access loop: a progress event with
counter `k` belongs to the `(k - n)`-th completion, and is immediately
followed by a data event exactly when that completion carried a non-empty
result. -/
theorem emitPair_progress_adjacency (cs : List (String × List α)) :
    ∀ n i id k,
      (emitPairEvents n (cs.map PyResult.val)).get? i = some (Event.progress id k) →
      n < k ∧ ∃ c, cs.get? (k - n - 1) = some c ∧ id = c.1 ∧
        ((∃ d, (emitPairEvents n (cs.map PyResult.val)).get? (i + 1)
            = some (Event.data d)) ↔ c.2 ≠ []) := by
  induction cs with
  | nil =>
      intro n i id k h
      cases i <;> simp [emitPairEvents] at h
  | cons c rest ih =>
      intro n i id k h
      by_cases hc : c.2.isEmpty
      · have hemit : emitPairEvents n ((c :: rest).map PyResult.val)
            = Event.progress c.1 (n + 1) ::
                emitPairEvents (n + 1) (rest.map PyResult.val) := by
          simp [emitPairEvents, hc]
        rw [hemit] at h
        cases i with
        | zero =>
            simp only [List.get?_cons_zero, Option.some.injEq, Event.progress.injEq] at h
            obtain ⟨hid, hk⟩ := h
            refine ⟨by omega, c, ?_, hid.symm, ?_⟩
            · have h0 : k - n - 1 = 0 := by omega
              rw [h0]; rfl
            · rw [hemit]
              simp only [List.get?_cons_succ]
              constructor
              · rintro ⟨d, hd⟩
                exact absurd hd (emitPair_head_not_data (n + 1) (rest.map PyResult.val) d)
              · intro hne
                exact absurd (List.isEmpty_iff.mp hc) hne
        | succ j =>
            rw [List.get?_cons_succ] at h
            obtain ⟨hnk, c', hget, hid, hiff⟩ := ih (n + 1) j id k h
            refine ⟨by omega, c', ?_, hid, ?_⟩
            · have hk2 : k - n - 1 = (k - (n + 1) - 1) + 1 := by omega
              rw [hk2, List.get?_cons_succ]
              exact hget
            · rw [hemit, List.get?_cons_succ]
              exact hiff
      · have hemit : emitPairEvents n ((c :: rest).map PyResult.val)
            = Event.progress c.1 (n + 1) :: Event.data c.2 ::
                emitPairEvents (n + 1) (rest.map PyResult.val) := by
          simp [emitPairEvents, hc]
        rw [hemit] at h
        cases i with
        | zero =>
            simp only [List.get?_cons_zero, Option.some.injEq, Event.progress.injEq] at h
            obtain ⟨hid, hk⟩ := h
            refine ⟨by omega, c, ?_, hid.symm, ?_⟩
            · have h0 : k - n - 1 = 0 := by omega
              rw [h0]; rfl
            · rw [hemit]
              constructor
              · intro _ hnil
                rw [hnil] at hc
                simp at hc
              · intro _
                exact ⟨c.2, rfl⟩
        | succ j =>
            cases j with
            | zero => simp at h
            | succ j2 =>
                simp only [List.get?_cons_succ] at h
                obtain ⟨hnk, c', hget, hid, hiff⟩ := ih (n + 1) j2 id k h
                refine ⟨by omega, c', ?_, hid, ?_⟩
                · have hk2 : k - n - 1 = (k - (n + 1) - 1) + 1 := by omega
                  rw [hk2, List.get?_cons_succ]
                  exact hget
                · rw [hemit]
                  simp only [List.get?_cons_succ]
                  exact hiff

/-- In the repo-audit loop every progress event is immediately followed by a
data event (every unit result is a full 17-column record). -/
theorem emitRepo_progress_then_data (rcs : List RepoData) :
    ∀ n i id k,
      (emitRepoEvents n (rcs.map PyResult.val)).get? i = some (Event.progress id k) →
      ∃ d, (emitRepoEvents n (rcs.map PyResult.val)).get? (i + 1)
        = some (Event.data d) := by
  induction rcs with
  | nil => intro n i id k h; cases i <;> simp [emitRepoEvents] at h
  | cons r rest ih =>
      intro n i id k h
      match i with
      | 0 => exact ⟨r, rfl⟩
      | 1 => simp [emitRepoEvents] at h
      | (j + 2) =>
          simp only [emitRepoEvents, List.get?_cons_succ] at h
          obtain ⟨d, hd⟩ := ih (n + 1) j id k h
          refine ⟨d, ?_⟩
          simp only [emitRepoEvents, List.get?_cons_succ]
          exact hd

/-- Derived properties of a strictly advancing progress list. -/
theorem progress_props_of_range (pc : List Nat) (N : Nat)
    (h : pc = List.range' 1 N) :
    pc.length = N ∧ List.Chain' (· < ·) pc ∧
    (0 < N → pc.getLast? = some N ∧ pc.count N = 1) := by
  subst h
  refine ⟨by simp, (List.pairwise_lt_range' 1 N).chain', ?_⟩
  intro hN
  constructor
  · rw [List.getLast?_range', if_neg (by omega)]
    congr 1
    omega
  · exact List.count_eq_one_of_mem (List.nodup_range' 1 N)
      (List.mem_range'_1.mpr ⟨by omega, by omega⟩)

/-- C5: on a successful run of the repo-audit stream over `N` repositories
(and of the branch stream over its `M` non-archived units), the progress
counters are exactly `1, ..., N` in order, hence there are exactly `N`
progress events, strictly monotonically increasing, the value `N` is reached
exactly once, at the last progress event, and the stream ends with the done
event (so the final progress precedes done). -/
theorem stream_progress_contract
    (pages : List (PageResponse Repo)) (reqs : List PageRequest) (repos : List Repo)
    (rcs : List RepoData) (bcs : List (String × List BranchRec))
    (evsR : List (Event RepoData)) (evsB : List (Event (List BranchRec)))
    (hfetch : fetchAllRepos pages = some (reqs, Except.ok repos))
    (hR : rcs.length = repos.length)
    (hB : bcs.length = (branchAuditUnitNames repos).length)
    (hevR : streamAuditReposRun pages (rcs.map PyResult.val) = some evsR)
    (hevB : streamBranchesRun pages (bcs.map PyResult.val) = some evsB) :
    (progressCounts evsR = List.range' 1 repos.length ∧
      (progressCounts evsR).length = repos.length ∧
      List.Chain' (· < ·) (progressCounts evsR) ∧
      (0 < repos.length →
        (progressCounts evsR).getLast? = some repos.length ∧
        (progressCounts evsR).count repos.length = 1) ∧
      evsR.getLast? = some Event.done) ∧
    (progressCounts evsB = List.range' 1 (branchAuditUnitNames repos).length ∧
      (progressCounts evsB).length = (branchAuditUnitNames repos).length ∧
      List.Chain' (· < ·) (progressCounts evsB) ∧
      (0 < (branchAuditUnitNames repos).length →
        (progressCounts evsB).getLast? = some (branchAuditUnitNames repos).length ∧
        (progressCounts evsB).count (branchAuditUnitNames repos).length = 1) ∧
      evsB.getLast? = some Event.done) := by
  have hevR2 : evsR = Event.start repos.length ::
      emitRepoEvents 0 (rcs.map PyResult.val) := by
    unfold streamAuditReposRun at hevR
    rw [hfetch] at hevR
    simpa using hevR.symm
  have hevB2 : evsB = Event.start (branchAuditUnitNames repos).length ::
      emitPairEvents 0 (bcs.map PyResult.val) := by
    unfold streamBranchesRun at hevB
    rw [hfetch] at hevB
    simpa using hevB.symm
  have hpcR : progressCounts evsR = List.range' 1 repos.length := by
    rw [hevR2]
    simp only [progressCounts]
    rw [progressCounts_emitRepo rcs 0, hR]
  have hpcB : progressCounts evsB = List.range' 1 (branchAuditUnitNames repos).length := by
    rw [hevB2]
    simp only [progressCounts]
    rw [progressCounts_emitPair bcs 0, hB]
  have hlastR : evsR.getLast? = some Event.done := by
    obtain ⟨l, hl⟩ := emitRepo_concat_done rcs 0
    rw [hevR2, hl, ← List.cons_append, List.getLast?_concat]
  have hlastB : evsB.getLast? = some Event.done := by
    obtain ⟨l, hl⟩ := emitPair_concat_done bcs 0
    rw [hevB2, hl, ← List.cons_append, List.getLast?_concat]
  obtain ⟨hlenR, hchR, hfinR⟩ := progress_props_of_range _ _ hpcR
  obtain ⟨hlenB, hchB, hfinB⟩ := progress_props_of_range _ _ hpcB
  exact ⟨⟨hpcR, hlenR, hchR, hfinR, hlastR⟩, ⟨hpcB, hlenB, hchB, hfinB, hlastB⟩⟩

/-- A non-archived repository fixture. -/
def repoA : Repo :=
  ⟨"alpha", none, [], false, false, some "main", none, 0, 0, ""⟩

/-- An archived repository fixture. -/
def repoB : Repo :=
  ⟨"beta", none, [], false, true, some "main", none, 0, 0, ""⟩

/-- An audit-row fixture for `repoA`. -/
def rdA : RepoData :=
  ⟨"alpha", "acme", none, "", false, false, "main", none, 0, 0, 0, "",
    false, false, true, "", 0⟩

/-- A branch-record fixture. -/
def brA : BranchRec := ⟨"alpha", "main", none, none, false⟩

/-- Witness for `stream_progress_contract`: a one-repo run has progress
counters `[1]` and ends in done. -/
theorem stream_progress_contract_witness :
    progressCounts (Event.start 1 :: emitRepoEvents 0 [PyResult.val rdA])
      = List.range' 1 1 ∧
    (Event.start 1 :: emitRepoEvents 0 [PyResult.val rdA]).getLast?
      = some Event.done := by
  have h := stream_progress_contract
    [⟨200, "", [repoA]⟩, ⟨200, "", []⟩] [⟨1, 100⟩, ⟨2, 100⟩] [repoA]
    [rdA] [("alpha", [])]
    (Event.start 1 :: emitRepoEvents 0 [PyResult.val rdA])
    (Event.start 1 :: emitPairEvents 0 [PyResult.val ("alpha", ([] : List BranchRec))])
    rfl rfl rfl rfl rfl
  exact ⟨h.1.1, h.1.2.2.2.2⟩

/-- C6: on a successful run, the branch/access loop emits a data event for
exactly the units whose result is non-empty (the data payloads are precisely
the non-empty results in completion order, so the data-event count equals the
count of units with non-empty results), and a progress event is immediately
followed by a data event if and only if its unit produced a non-empty
result; in the repo-audit loop every unit result is a full record, one data
event follows every progress event, and the data payloads are all `N` unit
records. -/
theorem data_events_match_results (n : Nat)
    (bcs : List (String × List BranchRec)) (rcs : List RepoData) :
    dataPayloads (emitPairEvents n (bcs.map PyResult.val)) =
      (bcs.map Prod.snd).filter (fun l => !l.isEmpty) ∧
    (dataPayloads (emitPairEvents n (bcs.map PyResult.val))).length =
      (bcs.filter (fun c => !c.2.isEmpty)).length ∧
    (∀ i id k,
      (emitPairEvents n (bcs.map PyResult.val)).get? i
          = some (Event.progress id k) →
      n < k ∧ ∃ c, bcs.get? (k - n - 1) = some c ∧ id = c.1 ∧
        ((∃ d, (emitPairEvents n (bcs.map PyResult.val)).get? (i + 1)
            = some (Event.data d)) ↔ c.2 ≠ [])) ∧
    dataPayloads (emitRepoEvents n (rcs.map PyResult.val)) = rcs ∧
    (∀ i id k,
      (emitRepoEvents n (rcs.map PyResult.val)).get? i
          = some (Event.progress id k) →
      ∃ d, (emitRepoEvents n (rcs.map PyResult.val)).get? (i + 1)
        = some (Event.data d)) := by
  refine ⟨dataPayloads_emitPair bcs n, ?_,
    fun i id k h => emitPair_progress_adjacency bcs n i id k h,
    dataPayloads_emitRepo rcs n,
    fun i id k h => emitRepo_progress_then_data rcs n i id k h⟩
  rw [dataPayloads_emitPair bcs n]
  exact filter_map_snd_length bcs

/-- Witness for `data_events_match_results`: with one unit carrying a branch
and one empty unit, exactly one data payload is emitted, and the repo loop
follows its progress with a data event. -/
theorem data_events_match_results_witness :
    dataPayloads (emitPairEvents 0
        [PyResult.val ("alpha", [brA]), PyResult.val ("beta", ([] : List BranchRec))])
      = [[brA]] ∧
    (∃ d, (emitRepoEvents 0 [PyResult.val rdA]).get? 1 = some (Event.data d)) := by
  have h := data_events_match_results 0 [("alpha", [brA]), ("beta", [])] [rdA]
  constructor
  · have h1 := h.1
    simpa using h1
  · exact h.2.2.2.2 0 "alpha" 1 rfl

/-- C8: when the entity-list fetch fails with a typed failure, either stream
emits exactly one event — the error event carrying the failure — and nothing
else: every emitted event is that error event, so there is no start, no
progress, no data and no done. -/
theorem list_failure_single_error_event
    (pages : List (PageResponse Repo)) (reqs : List PageRequest) (e : FetchError)
    (rcs : List (PyResult RepoData))
    (bcs : List (PyResult (String × List BranchRec)))
    (hfetch : fetchAllRepos pages = some (reqs, Except.error e)) :
    streamAuditReposRun pages rcs = some [Event.error e] ∧
    streamBranchesRun pages bcs = some [Event.error e] ∧
    (∀ evs, streamAuditReposRun pages rcs = some evs →
      ∀ ev ∈ evs, ev = Event.error e) ∧
    (∀ evs, streamBranchesRun pages bcs = some evs →
      ∀ ev ∈ evs, ev = Event.error e) := by
  have hA : streamAuditReposRun pages rcs = some [Event.error e] := by
    unfold streamAuditReposRun
    rw [hfetch]
  have hB : streamBranchesRun pages bcs = some [Event.error e] := by
    unfold streamBranchesRun
    rw [hfetch]
  refine ⟨hA, hB, ?_, ?_⟩
  · intro evs hevs ev hev
    rw [hA] at hevs
    injection hevs with h2
    rw [← h2] at hev
    simpa using hev
  · intro evs hevs ev hev
    rw [hB] at hevs
    injection hevs with h2
    rw [← h2] at hev
    simpa using hev

/-- Witness for `list_failure_single_error_event`: a 401 on the first list
page gives exactly one invalid-credential error event on both streams. -/
theorem list_failure_single_error_event_witness :
    streamAuditReposRun [(⟨401, "bad", []⟩ : PageResponse Repo)] []
      = some [Event.error FetchError.invalidToken] ∧
    streamBranchesRun [(⟨401, "bad", []⟩ : PageResponse Repo)] []
      = some [Event.error FetchError.invalidToken] := by
  have h := list_failure_single_error_event
    [⟨401, "bad", []⟩] [⟨1, 100⟩] FetchError.invalidToken [] [] rfl
  exact ⟨h.1, h.2.1⟩

/-- Splitting a list by a boolean predicate preserves total length. -/
theorem length_filter_not_add (l : List α) (p : α → Bool) :
    (l.filter (fun a => !(p a))).length + (l.filter p).length = l.length := by
  induction l with
  | nil => simp
  | cons a rest ih =>
      by_cases h : p a <;> simp [List.filter_cons, h] <;> omega

/-- C10: the branch and access streams share the same unit list — the names
of exactly the non-archived repositories (their start totals equal the repo
count minus the archived count) — while the repo audit stream covers every
repository, archived included; composed with a successful fetch, the streams
emit those totals in their start events. -/
theorem archived_filtering (repos : List Repo) :
    accessAuditUnitNames repos = branchAuditUnitNames repos ∧
    (branchAuditUnitNames repos).length
        + (repos.filter (fun r => r.archived)).length = repos.length ∧
    (repoAuditUnitNames repos).length = repos.length ∧
    (∀ r ∈ repos, r.archived = false → r.name ∈ branchAuditUnitNames repos) ∧
    (∀ nm ∈ branchAuditUnitNames repos,
      ∃ r ∈ repos, r.archived = false ∧ r.name = nm) ∧
    (∀ r ∈ repos, r.name ∈ repoAuditUnitNames repos) ∧
    (∀ pages reqs completions, fetchAllRepos pages = some (reqs, Except.ok repos) →
      streamBranchesRun pages completions
        = some (Event.start (branchAuditUnitNames repos).length ::
            emitPairEvents 0 completions)) ∧
    (∀ pages reqs completions, fetchAllRepos pages = some (reqs, Except.ok repos) →
      streamAuditReposRun pages completions
        = some (Event.start repos.length :: emitRepoEvents 0 completions)) := by
  refine ⟨rfl, ?_, by simp [repoAuditUnitNames], ?_, ?_, ?_, ?_, ?_⟩
  · have h := length_filter_not_add repos (fun r => r.archived)
    simpa [branchAuditUnitNames] using h
  · intro r hr ha
    simp only [branchAuditUnitNames, List.mem_map, List.mem_filter]
    exact ⟨r, ⟨hr, by simp [ha]⟩, rfl⟩
  · intro nm hnm
    simp only [branchAuditUnitNames, List.mem_map, List.mem_filter] at hnm
    obtain ⟨r, ⟨hr, ha⟩, rfl⟩ := hnm
    exact ⟨r, hr, by simpa using ha, rfl⟩
  · intro r hr
    simp only [repoAuditUnitNames, List.mem_map]
    exact ⟨r, hr, rfl⟩
  · intro pages reqs completions hfetch
    unfold streamBranchesRun
    rw [hfetch]
  · intro pages reqs completions hfetch
    unfold streamAuditReposRun
    rw [hfetch]

/-- Witness for `archived_filtering`: the non-archived `repoA` is a branch
unit, the archived `repoB` is still a repo-audit unit. -/
theorem archived_filtering_witness :
    repoA.name ∈ branchAuditUnitNames [repoA, repoB] ∧
    repoB.name ∈ repoAuditUnitNames [repoA, repoB] :=
  ⟨(archived_filtering [repoA, repoB]).2.2.2.1 repoA (by simp) rfl,
    (archived_filtering [repoA, repoB]).2.2.2.2.2.1 repoB (by simp)⟩

/-! ## Semaphore invariant -/

/-- One semaphore step conserves the permit total. -/
theorem semStep_sum {s s' : Sem} {e : SemEvt} (h : semStep s e = some s') :
    s'.avail + s'.held = s.avail + s.held := by
  cases e
  · simp only [semStep] at h
    by_cases h0 : s.avail = 0
    · simp [h0] at h
    · simp [h0] at h
      subst h
      simp
      omega
  · simp only [semStep] at h
    by_cases h0 : s.held = 0
    · simp [h0] at h
    · simp [h0] at h
      subst h
      simp
      omega

/-- A whole trace conserves the permit total. -/
theorem semRun_sum (evts : List SemEvt) :
    ∀ s s', semRun s evts = some s' → s'.avail + s'.held = s.avail + s.held := by
  induction evts with
  | nil =>
      intro s s' h
      simp [semRun] at h
      rw [h]
  | cons e es ih =>
      intro s s' h
      simp only [semRun] at h
      cases hstep : semStep s e with
      | none => rw [hstep] at h; simp at h
      | some s2 =>
          rw [hstep] at h
          simp only at h
          exact (ih s2 s' h).trans (semStep_sum hstep)

/-- C1: in the audit unit the permit is acquired before any sub-request is
issued (the acquire strictly precedes every request event in the unit
trace), and along every valid interleaving of acquires and releases of the
five-permit semaphore the number of concurrently held permits never exceeds
5. -/
theorem audit_concurrency_ceiling :
    (∀ (urls : List String) (i : Nat) (u : String),
        (auditUnitEvents urls).get? i = some (AuditEvt.request u) →
        ∃ j, j < i ∧ (auditUnitEvents urls).get? j = some AuditEvt.acq) ∧
    (∀ (evts : List SemEvt) (s : Sem),
        semRun (Sem.init AUDIT_SEM_PERMITS) evts = some s →
        s.held ≤ AUDIT_SEM_PERMITS) := by
  constructor
  · intro urls i u h
    refine ⟨0, ?_, rfl⟩
    cases i with
    | zero => simp [auditUnitEvents] at h
    | succ j => omega
  · intro evts s h
    have hsum := semRun_sum evts (Sem.init AUDIT_SEM_PERMITS) s h
    simp only [Sem.init, AUDIT_SEM_PERMITS] at hsum ⊢
    omega

/-- Witness for `audit_concurrency_ceiling`: the acquire precedes the single
request of a one-request unit, and after one acquire a 5-permit semaphore
holds 1 ≤ 5 permits. -/
theorem audit_concurrency_ceiling_witness :
    (∃ j, j < 1 ∧ (auditUnitEvents ["u"]).get? j = some AuditEvt.acq) ∧
    (Sem.mk 4 1).held ≤ AUDIT_SEM_PERMITS :=
  ⟨audit_concurrency_ceiling.1 ["u"] 1 "u" rfl,
    audit_concurrency_ceiling.2 [SemEvt.acquire] (Sem.mk 4 1) rfl⟩

/-! ## Per-unit failure handling -/

/-- C9 (amended): `_audit_single_repo` contains no try/except, so what is
tolerated per unit is a sub-request completing with a non-200 status — all
checks then degrade to their defaults (no codeowners, direct push allowed,
no required reviewers, zero admins with empty names, zero branches) and the
unit still returns a full record; a raised exception, by contrast,
propagates out of the unit uncaught; the concurrency permit, however, is
released unconditionally, also when the unit body raises, by the
`async with sem:` context manager. -/
theorem unit_failure_degrades_not_raises :
    (∀ (org : String) (repo : Repo) (s1 s2 s3 rs ap bp : Nat)
        (rules : List Rule) (users branches : List String),
        s1 ≠ 200 → s2 ≠ 200 → s3 ≠ 200 → rs ≠ 200 → ap ≠ 200 → bp ≠ 200 →
        auditSingleRepo org repo (PyResult.val s1) (PyResult.val s2)
            (PyResult.val s3) (PyResult.val (rs, rules))
            [PyResult.val (ap, users)] [PyResult.val (bp, branches)]
          = some (PyResult.val
              { repository := repo.name
                owner := org
                description := repo.description
                topics := String.intercalate ", " repo.topics
                isPrivate := repo.isPrivate
                archived := repo.archived
                default_branch := repo.default_branch.getD "main"
                language := repo.language
                stars := repo.stargazers_count
                forks := repo.forks_count
                admin_count := 0
                admin_names := ""
                has_codeowners := false
                has_required_reviewers := false
                allows_direct_push := true
                url := repo.html_url
                branch_count := 0 })) ∧
    (∀ (e org : String) (repo : Repo) (co2 co3 : PyResult Nat)
        (rulesResp : PyResult (Nat × List Rule))
        (adminPages branchPages : List (PyResult (Nat × List String)))
        (aR : PyResult (Nat × String)) (bR : PyResult Nat),
        getAdminsLoop [] adminPages = some aR →
        getBranchCountLoop 0 branchPages = some bR →
        auditSingleRepo org repo (PyResult.exn e) co2 co3 rulesResp
            adminPages branchPages
          = some (PyResult.exn e)) ∧
    (∀ (s : Sem) (body : PyResult RepoData), 0 < s.avail →
        withSem s body = some (s, body)) := by
  refine ⟨?_, ?_, ?_⟩
  · intro org repo s1 s2 s3 rs ap bp rules users branches h1 h2 h3 hrs hap hbp
    simp [auditSingleRepo, getAdminsLoop, getBranchCountLoop, checkCodeowners,
      checkPath, checkBranchRules, h1, h2, h3, hrs, hap, hbp]
  · intro e org repo co2 co3 rulesResp adminPages branchPages aR bR hA hB
    unfold auditSingleRepo
    rw [hA, hB]
    rcases co2 with a2 | e2 <;> rcases co3 with a3 | e3 <;>
      rcases rulesResp with p | er <;> rcases aR with pa | ea <;>
      rcases bR with nb | eb <;>
      simp [checkCodeowners, checkPath, checkBranchRules]
  · intro s body hpos
    rcases s with ⟨a, h⟩
    have ha : a ≠ 0 := by simp at hpos; omega
    simp [withSem, semStep, ha]
    omega

/-- Witness for `unit_failure_degrades_not_raises`: with every sub-request
answering 404, the unit returns the fully degraded record, and a permit
taken around a raising body is given back. -/
theorem unit_failure_degrades_not_raises_witness :
    auditSingleRepo "acme" repoA (PyResult.val 404) (PyResult.val 404)
        (PyResult.val 404) (PyResult.val (404, []))
        [PyResult.val (404, [])] [PyResult.val (404, [])]
      = some (PyResult.val
          { repository := "alpha", owner := "acme", description := none,
            topics := "", isPrivate := false, archived := false,
            default_branch := "main", language := none, stars := 0, forks := 0,
            admin_count := 0, admin_names := "", has_codeowners := false,
            has_required_reviewers := false, allows_direct_push := true,
            url := "", branch_count := 0 }) ∧
    withSem (Sem.mk 5 0) (PyResult.exn "boom" : PyResult RepoData)
      = some (Sem.mk 5 0, PyResult.exn "boom") := by
  constructor
  · have h := unit_failure_degrades_not_raises.1 "acme" repoA 404 404 404 404 404 404
      [] [] [] (by decide) (by decide) (by decide) (by decide) (by decide) (by decide)
    exact h
  · exact unit_failure_degrades_not_raises.2.2 (Sem.mk 5 0)
      (PyResult.exn "boom") (by decide)

/-- C9 counterexample: a unit whose codeowners sub-request raises does not
get its exception caught and converted into a result — `_audit_single_repo`
re-raises it, the repo-audit generator dies at `await coro`, and after the
start event the stream emits nothing for the unit: no progress, no data, no
done. -/
theorem unit_exception_uncaught_cex :
    auditSingleRepo "acme" repoA (PyResult.exn "boom") (PyResult.val 404)
        (PyResult.val 404) (PyResult.val (404, []))
        [PyResult.val (404, [])] [PyResult.val (404, [])]
      = some (PyResult.exn "boom") ∧
    emitRepoEvents 0 [PyResult.exn "boom"] = [] ∧
    streamAuditReposRun [⟨200, "", [repoA]⟩, ⟨200, "", []⟩] [PyResult.exn "boom"]
      = some [Event.start 1] := by
  refine ⟨rfl, rfl, rfl⟩
